import Mathlib

/-!
# Verification of the deltav_calc core

Shallow embedding of the core of the `deltav_calc` repository
(`src/deltav_calc_lib/src/lib.rs` and `src/deltav_calc_lib/src/menutree.rs`):
a menu tree of named categories and locations, an undirected edge-weighted
graph over the locations, and the delta-v (shortest-path cost) query that
joins the two.

Rust `Vec` becomes `List`, `i32` weights become `Int`, `NodeIndex` becomes
`Nat`, fallible functions return `Except`, and a Rust panic is modelled by a
distinguished constructor / `Option.none` as documented at each definition.
-/

namespace DeltavCalc

/-- `NoSuchNodeError` from `menutree.rs`: raised when a node is searched that
does not exist; it stores the searched name (`cause_name`). -/
structure NoSuchNodeError where
  name : String
deriving Repr, DecidableEq

/-- `MenuTree` from `menutree.rs`: `MiddleNode` is a category holding child
trees in order; `EndNode` is a leaf location holding a graph vertex index. -/
inductive MenuTree where
  | MiddleNode (name : String) (children : List MenuTree)
  | EndNode (name : String) (index : Nat)
deriving Repr

/-- `MenuTree::name`: the node's own name, total. -/
def MenuTree.name : MenuTree → String
  | .MiddleNode n _ => n
  | .EndNode n _ => n

/-- `MenuTree::index`: returns the graph vertex index of an `EndNode`; on a
`MiddleNode` the Rust code panics ("MiddleNodes don't have indices"), which is
modelled by `none`. -/
def MenuTree.index : MenuTree → Option Nat
  | .MiddleNode _ _ => none
  | .EndNode _ i => some i

mutual

/-- `MenuTree::search` from `menutree.rs`: an `EndNode` matches iff its name
equals the searched name; a `MiddleNode` first compares its own name, then
tries its children in stored order, returning the first success; every failure
carries the searched name. -/
def MenuTree.search : MenuTree → String → Except NoSuchNodeError MenuTree
  | .EndNode name index, searchName =>
      if name = searchName then .ok (.EndNode name index)
      else .error ⟨searchName⟩
  | .MiddleNode name children, searchName =>
      if name = searchName then .ok (.MiddleNode name children)
      else MenuTree.searchChildren children searchName

/-- The `for child in children` loop inside `MenuTree::search`: try each child
in order, return the first `Ok`, and fall through to an error carrying the
searched name. -/
def MenuTree.searchChildren : List MenuTree → String → Except NoSuchNodeError MenuTree
  | [], searchName => .error ⟨searchName⟩
  | child :: rest, searchName =>
      match child.search searchName with
      | .ok result => .ok result
      | .error _ => MenuTree.searchChildren rest searchName

end

/-- `petgraph::graph::UnGraph<String, i32>` as used by `DeltavMap`: a vertex
list (the `String` payloads, addressed by position) and an edge list of
`(source, target, weight)` triples, read as undirected. -/
structure UnGraph where
  nodes : List String
  edges : List (Nat × Nat × Int)
deriving Repr, DecidableEq

/-- `Graph::add_node`: appends a vertex and returns its index (the previous
vertex count), construction-time only. -/
def UnGraph.add_node (g : UnGraph) (payload : String) : UnGraph × Nat :=
  ({ g with nodes := g.nodes ++ [payload] }, g.nodes.length)

/-- `Graph::add_edge`: appends one undirected edge; no validation that the
endpoints differ or that the edge is new (parallel edges are kept). -/
def UnGraph.add_edge (g : UnGraph) (a b : Nat) (w : Int) : UnGraph :=
  { g with edges := g.edges ++ [(a, b, w)] }

/-- A vertex index is a vertex of the graph iff it is below the vertex count
(petgraph vertices of a deserialized/constructed graph are `0..node_count`). -/
def UnGraph.hasVertex (g : UnGraph) (i : Nat) : Prop :=
  i < g.nodes.length

instance (g : UnGraph) (i : Nat) : Decidable (g.hasVertex i) :=
  inferInstanceAs (Decidable (i < g.nodes.length))

/-- The neighbours of `u` with the weight of the connecting edge, one entry
per incident edge in edge order (the graph is undirected, so an edge is
incident when either endpoint is `u`). -/
def UnGraph.neighbors (g : UnGraph) (u : Nat) : List (Nat × Int) :=
  g.edges.filterMap fun t =>
    if t.1 = u then some (t.2.1, t.2.2)
    else if t.2.1 = u then some (t.1, t.2.2)
    else none

/-- Modelled from the spec: the shortest-path search itself lives in the
external `petgraph::algo::astar` crate, not in this repository; the spec
(§4.2) specifies it as "the minimum total edge weight along any path" from
start to end over non-negative weights, `None` when the vertices are in
different connected components and `Some(0)` when start equals end.  This
function enumerates the total weights of all simple paths (no repeated
vertex) from `u` to `finish` avoiding `visited`; for non-negative weights the
minimum over simple paths is the minimum over all paths.  `fuel` bounds the
recursion depth; a simple path visits each vertex at most once, so any fuel
of at least the vertex count of the path is enough. -/
def UnGraph.pathCosts (g : UnGraph) (u finish : Nat) (visited : List Nat) :
    Nat → List Int
  | 0 => []
  | fuel + 1 =>
      (if u = finish then [0] else []) ++
      (g.neighbors u).flatMap fun vw =>
        if vw.1 ∈ visited ∨ vw.1 = u then []
        else (g.pathCosts vw.1 finish (u :: visited) fuel).map fun c => vw.2 + c

/-- Enough fuel for `pathCosts` to enumerate every simple path: every vertex
of a path except the start is an endpoint of some edge, and a simple path
repeats no vertex, so no simple path has more than `2 * |edges| + 1`
vertices. -/
def UnGraph.pathFuel (g : UnGraph) : Nat :=
  2 * g.edges.length + 2

/-- Modelled from the spec: the `petgraph::algo::astar` call of
`DeltavMap::calculate_delta_v` with the zero heuristic (exactly Dijkstra per
spec §4.2) — the minimum total edge weight along any path from `start` to
`finish`, `none` when no path exists. -/
def UnGraph.shortest_path (g : UnGraph) (start finish : Nat) : Option Int :=
  (g.pathCosts start finish [] g.pathFuel).min?

/-- Two vertices are in the same connected component iff some simple path
joins them (`connected_iff_walk` below restates this with walks). -/
def UnGraph.connected (g : UnGraph) (start finish : Nat) : Prop :=
  g.pathCosts start finish [] g.pathFuel ≠ []

instance (g : UnGraph) (s f : Nat) : Decidable (g.connected s f) :=
  inferInstanceAs (Decidable (g.pathCosts s f [] g.pathFuel ≠ []))

/-- `DeltavMap` from `lib.rs`: the menu tree paired with the cost graph. -/
structure DeltavMap where
  menu_tree : MenuTree
  graph : UnGraph
deriving Repr

/-- The outcome of `DeltavMap::calculate_delta_v`.  The Rust signature is
`Result<Option<i32>, NoSuchNodeError>`; `panicked` additionally models the
process abort that `MenuTree::index` causes when a resolved node is a
`MiddleNode` (a panic is not a `Result` value). -/
inductive CalcResult where
  | ok : Option Int → CalcResult
  | err : NoSuchNodeError → CalcResult
  | panicked : CalcResult
deriving Repr, DecidableEq

/-- `DeltavMap::calculate_delta_v` from `lib.rs`: resolve `start` by tree
search (propagating its error), then resolve `finish` likewise, then run the
shortest-path search between the two resolved vertex indices.  The Rust code
evaluates `start.index()` when building the `astar` arguments and
`end.index()` inside the goal closure, which `astar` invokes on the very
first queue pop; so if either resolved node is a `MiddleNode` the call panics
before any path is produced, modelled by `CalcResult.panicked`.  (`end` is a
Lean keyword; the second parameter is named `finish` here.) -/
def DeltavMap.calculate_delta_v (m : DeltavMap) (start finish : String) :
    CalcResult :=
  match m.menu_tree.search start with
  | .error e => .err e
  | .ok startNode =>
      match m.menu_tree.search finish with
      | .error e => .err e
      | .ok finishNode =>
          match startNode.index, finishNode.index with
          | some i, some j => .ok (m.graph.shortest_path i j)
          | _, _ => .panicked

/-- `tests::get_test_map` from `lib.rs`: the 4-leaf reference catalog.  The
`graph.add_node` calls inside the tree literal run in textual order, so the
leaves receive the indices 0..3; the three `graph.add_edge` calls resolve the
leaf names through `menu_tree[..]` to those indices. -/
def get_test_map : DeltavMap where
  menu_tree := .MiddleNode "Category1" [
    .MiddleNode "Category2" [
      .EndNode "Node1" 0,
      .EndNode "Node2" 1],
    .EndNode "Node3" 2,
    .EndNode "Node4" 3]
  graph := {
    nodes := ["Node1", "Node2", "Node3", "Node4"]
    edges := [(0, 1, 900), (1, 2, 80), (2, 3, 50)] }

/-- `DeltavMap::new_stock` from `lib.rs`: the hardcoded stock Kerbol-system
catalog.  The `graph.add_node` calls inside the tree literal run in textual
order, so the 55 leaves receive the indices 0..54 in depth-first textual
order; the vertex payloads repeat the leaf names (including the source's two
stray payload typos `"Duna Surface)"` and `"Ike Intercept)"`).  The 54
`graph.add_edge` calls resolve leaf names through `menu_tree[..]` to the
indices recorded here, in source order. -/
def DeltavMap.new_stock : DeltavMap where
  menu_tree := .MiddleNode "Kerbol System" [
    .MiddleNode "Kerbin" [
      .EndNode "Kerbin Surface" 0,
      .EndNode "Low Kerbin Orbit (80km)" 1,
      .EndNode "Keostationary Orbit (2.868Mm)" 2,
      .EndNode "Kerbin Capture" 3,
      .MiddleNode "Mun" [
        .EndNode "Mun Intercept" 4,
        .EndNode "Low Mun Orbit (14km)" 5,
        .EndNode "Mun Surface" 6],
      .MiddleNode "Minmus" [
        .EndNode "Minmus Intercept" 7,
        .EndNode "Low Minmus Orbit (10km)" 8,
        .EndNode "Minmus Surface" 9]],
    .MiddleNode "Eve" [
      .EndNode "Eve Intercept" 10,
      .EndNode "Eve Capture (100km - 85Mm)" 11,
      .EndNode "Low Eve Orbit (100km)" 12,
      .EndNode "Eve Surface" 13,
      .MiddleNode "Gilly" [
        .EndNode "Gilly Intercept" 14,
        .EndNode "Low Gilly Orbit (10km)" 15,
        .EndNode "Gilly Surface" 16]],
    .MiddleNode "Duna" [
      .EndNode "Duna Intercept" 17,
      .EndNode "Duna Capture (60km - 48Mm)" 18,
      .EndNode "Low Duna Orbit (60km)" 19,
      .EndNode "Duna Surface" 20,
      .MiddleNode "Ike" [
        .EndNode "Ike Intercept" 21,
        .EndNode "Low Ike Orbit (10km)" 22,
        .EndNode "Ike Surface" 23]],
    .MiddleNode "Jool" [
      .EndNode "Jool Intercept" 24,
      .EndNode "Jool Capture (210km - 268Mm)" 25,
      .EndNode "Low Jool Orbit (210km)" 26,
      .EndNode "Jool Surface" 27,
      .MiddleNode "Pol" [
        .EndNode "Pol Intercept" 28,
        .EndNode "Low Pol Orbit (10km)" 29,
        .EndNode "Pol Surface" 30],
      .MiddleNode "Bop" [
        .EndNode "Bop Intercept" 31,
        .EndNode "Low Bop Orbit (30km)" 32,
        .EndNode "Bop Surface" 33],
      .MiddleNode "Tylo" [
        .EndNode "Tylo Intercept" 34,
        .EndNode "Low Tylo Orbit (10km)" 35,
        .EndNode "Tylo Surface" 36],
      .MiddleNode "Vall" [
        .EndNode "Vall Intercept" 37,
        .EndNode "Low Vall Orbit (15km)" 38,
        .EndNode "Vall Surface" 39],
      .MiddleNode "Laythe" [
        .EndNode "Laythe Intercept" 40,
        .EndNode "Low Laythe Orbit (60km)" 41,
        .EndNode "Laythe Surface" 42]],
    .MiddleNode "Dres" [
      .EndNode "Dres Intercept" 43,
      .EndNode "Low Dres Orbit (12km)" 44,
      .EndNode "Dres Surface" 45],
    .MiddleNode "Moho" [
      .EndNode "Moho Intercept" 46,
      .EndNode "Low Moho Orbit (20km)" 47,
      .EndNode "Moho Surface" 48],
    .MiddleNode "Eeloo" [
      .EndNode "Eeloo Intercept" 49,
      .EndNode "Low Eeloo Orbit (10km)" 50,
      .EndNode "Eeloo Surface" 51],
    .EndNode "Elliptical Kerbol Orbit (610km - 13,600Mm)" 52,
    .EndNode "Low Kerbol Orbit (610km)" 53,
    .EndNode "Kerbol Surface" 54]
  graph := {
    nodes := [
      "Kerbin Surface", "Low Kerbin Orbit (80km)", "Keostationary Orbit (2.868Mm)",
      "Kerbin Capture", "Mun Intercept", "Low Mun Orbit (14km)", "Mun Surface",
      "Minmus Intercept", "Low Minmus Orbit (10km)", "Minmus Surface",
      "Eve Intercept", "Eve Capture (100km - 85Mm)", "Low Eve Orbit (100km)",
      "Eve Surface", "Gilly Intercept", "Low Gilly Orbit (10km)", "Gilly Surface",
      "Duna Intercept", "Duna Capture (60km - 48Mm)", "Low Duna Orbit (60km)",
      "Duna Surface)", "Ike Intercept)", "Low Ike Orbit (10km)", "Ike Surface",
      "Jool Intercept", "Jool Capture (210km - 268Mm)", "Low Jool Orbit (210km)",
      "Jool Surface", "Pol Intercept", "Low Pol Orbit (10km)", "Pol Surface",
      "Bop Intercept", "Low Bop Orbit (30km)", "Bop Surface",
      "Tylo Intercept", "Low Tylo Orbit (10km)", "Tylo Surface",
      "Vall Intercept", "Low Vall Orbit (15km)", "Vall Surface",
      "Laythe Intercept", "Low Laythe Orbit (60km)", "Laythe Surface",
      "Dres Intercept", "Low Dres Orbit (12km)", "Dres Surface",
      "Moho Intercept", "Low Moho Orbit (20km)", "Moho Surface",
      "Eeloo Intercept", "Low Eeloo Orbit (10km)", "Eeloo Surface",
      "Elliptical Kerbol Orbit (610km - 13,600Mm)", "Low Kerbol Orbit (610km)",
      "Kerbol Surface"]
    edges := [
      (0, 1, 3400), (1, 2, 1115), (1, 3, 950),
      (1, 4, 860), (4, 5, 280), (5, 6, 580),
      (1, 7, 930), (7, 8, 160), (8, 9, 180),
      (3, 10, 90), (10, 11, 80), (11, 12, 1350), (12, 13, 8000),
      (11, 14, 60), (14, 15, 410), (15, 16, 30),
      (3, 17, 130), (17, 18, 250), (18, 19, 360), (19, 20, 1450),
      (18, 21, 30), (21, 22, 180), (22, 23, 390),
      (3, 24, 980), (24, 25, 160), (25, 26, 2810), (26, 27, 14000),
      (25, 28, 160), (28, 29, 820), (29, 30, 130),
      (25, 31, 220), (31, 32, 900), (32, 33, 230),
      (25, 34, 400), (34, 35, 1100), (35, 36, 2270),
      (25, 37, 620), (37, 38, 910), (38, 39, 860),
      (25, 40, 930), (40, 41, 1070), (41, 42, 2900),
      (3, 43, 610), (43, 44, 1290), (44, 45, 430),
      (3, 46, 760), (46, 47, 2410), (47, 48, 870),
      (3, 49, 1140), (49, 50, 1370), (50, 51, 620),
      (3, 52, 6000), (52, 53, 13700), (53, 54, 67000)] }

/-- The disconnected variant of the reference catalog from spec §8: the
4-leaf test map plus a fifth leaf `Node5` bound to a fresh vertex with no
incident edges. -/
def get_test_map_disconnected : DeltavMap where
  menu_tree := .MiddleNode "Category1" [
    .MiddleNode "Category2" [
      .EndNode "Node1" 0,
      .EndNode "Node2" 1],
    .EndNode "Node3" 2,
    .EndNode "Node4" 3,
    .EndNode "Node5" 4]
  graph := {
    nodes := ["Node1", "Node2", "Node3", "Node4", "Node5"]
    edges := [(0, 1, 900), (1, 2, 80), (2, 3, 50)] }

mutual

/-- The vertex indices stored in the `EndNode` leaves of a tree, in
depth-first order. -/
def MenuTree.leafIndices : MenuTree → List Nat
  | .MiddleNode _ children => MenuTree.leafIndicesChildren children
  | .EndNode _ index => [index]

/-- `leafIndices` over a child list. -/
def MenuTree.leafIndicesChildren : List MenuTree → List Nat
  | [] => []
  | c :: rest => c.leafIndices ++ MenuTree.leafIndicesChildren rest

end

mutual

/-- All names occurring in a tree (categories and locations), in depth-first
order. -/
def MenuTree.names : MenuTree → List String
  | .MiddleNode n children => n :: MenuTree.namesChildren children
  | .EndNode n _ => [n]

/-- `names` over a child list. -/
def MenuTree.namesChildren : List MenuTree → List String
  | [] => []
  | c :: rest => c.names ++ MenuTree.namesChildren rest

end

mutual

/-- The spec's depth-first visit order (§4.1): a node's own name is checked
before its children, and children are visited in stored order.  Written from
the spec's words, to be compared with `MenuTree.search`. -/
def MenuTree.preorder : MenuTree → List MenuTree
  | .MiddleNode n children => .MiddleNode n children :: MenuTree.preorderChildren children
  | .EndNode n i => [.EndNode n i]

/-- `preorder` over a child list. -/
def MenuTree.preorderChildren : List MenuTree → List MenuTree
  | [] => []
  | c :: rest => c.preorder ++ MenuTree.preorderChildren rest

end

/-- Simultaneous induction over a `MenuTree` and a list of `MenuTree`s
(the nested recursor packaged for proofs about the mutual functions). -/
theorem MenuTree.nestedInduction {P : MenuTree → Prop} {Q : List MenuTree → Prop}
    (hM : ∀ n cs, Q cs → P (.MiddleNode n cs))
    (hE : ∀ n i, P (.EndNode n i))
    (hnil : Q [])
    (hcons : ∀ t ts, P t → Q ts → Q (t :: ts)) :
    (∀ t, P t) ∧ (∀ ts, Q ts) :=
  ⟨fun t => MenuTree.rec hM hE hnil hcons t,
   fun ts => MenuTree.rec_1 hM hE hnil hcons ts⟩

/-- Joint characterization of `search` and `searchChildren`: a search is the
first node in depth-first preorder whose name matches exactly, or an error
carrying the searched name. -/
theorem search_spec_aux :
    (∀ (t : MenuTree) (s : String),
      t.search s = match t.preorder.find? (fun n => n.name == s) with
        | some n => Except.ok n
        | none => Except.error ⟨s⟩) ∧
    (∀ (ts : List MenuTree) (s : String),
      MenuTree.searchChildren ts s =
        match (MenuTree.preorderChildren ts).find? (fun n => n.name == s) with
        | some n => Except.ok n
        | none => Except.error ⟨s⟩) := by
  refine @MenuTree.nestedInduction
    (fun t => ∀ s : String,
      t.search s = match t.preorder.find? (fun n => n.name == s) with
        | some n => Except.ok n
        | none => Except.error ⟨s⟩)
    (fun ts => ∀ s : String,
      MenuTree.searchChildren ts s =
        match (MenuTree.preorderChildren ts).find? (fun n => n.name == s) with
        | some n => Except.ok n
        | none => Except.error ⟨s⟩)
    ?_ ?_ ?_ ?_
  · intro n cs ih s
    rw [MenuTree.search, MenuTree.preorder]
    by_cases h : n = s
    · subst h
      simp [List.find?_cons, MenuTree.name]
    · rw [if_neg h, List.find?_cons_of_neg _ (by simp [MenuTree.name, h])]
      exact ih s
  · intro n i s
    rw [MenuTree.search, MenuTree.preorder]
    by_cases h : n = s
    · subst h
      simp [List.find?_cons, MenuTree.name]
    · rw [if_neg h, List.find?_cons_of_neg _ (by simp [MenuTree.name, h])]
      rfl
  · intro s
    rfl
  · intro t ts iht ihts s
    rw [MenuTree.searchChildren, MenuTree.preorderChildren, List.find?_append]
    cases hf : t.preorder.find? (fun n => n.name == s) with
    | some n =>
        rw [iht s, hf]
        rfl
    | none =>
        rw [iht s, hf]
        simp only [Option.none_or]
        exact ihts s

/-- `names` lists exactly the names of the preorder traversal. -/
theorem names_eq_preorder_map :
    (∀ t : MenuTree, t.names = t.preorder.map MenuTree.name) ∧
    (∀ ts : List MenuTree,
      MenuTree.namesChildren ts = (MenuTree.preorderChildren ts).map MenuTree.name) := by
  refine @MenuTree.nestedInduction
    (fun t => t.names = t.preorder.map MenuTree.name)
    (fun ts => MenuTree.namesChildren ts = (MenuTree.preorderChildren ts).map MenuTree.name)
    ?_ ?_ ?_ ?_
  · intro n cs ih
    rw [MenuTree.names, MenuTree.preorder, List.map_cons, ih]
    rfl
  · intro n i
    rfl
  · rfl
  · intro t ts iht ihts
    rw [MenuTree.namesChildren, MenuTree.preorderChildren, List.map_append, iht, ihts]

/-- A name absent from the whole tree makes `search` fail with exactly that
name. -/
theorem search_not_found {t : MenuTree} {s : String} (h : s ∉ t.names) :
    t.search s = .error ⟨s⟩ := by
  rw [search_spec_aux.1 t s]
  have hfind : t.preorder.find? (fun n => n.name == s) = none := by
    rw [List.find?_eq_none]
    intro x hx
    simp only [beq_iff_eq]
    intro hxs
    exact h (by
      rw [names_eq_preorder_map.1]
      exact hxs ▸ List.mem_map_of_mem MenuTree.name hx)
  rw [hfind]

/-! ## Deserialization

The repository has no hand-written deserializer: `DeltavMap`, `MenuTree` and
the petgraph graph all use `#[derive(Deserialize)]` (serde), which
deserializes field by field with no cross-field validation.  The structured
description below is the post-parse shape of the documented JSON format
(`menu_tree` plus a `graph` object of `nodes` and `edges`). -/

/-- The spec's `DeserializeError` (§7): the external description was
rejected at load time. -/
structure DeserializeError where
  message : String
deriving Repr, DecidableEq

/-- The documented external description: a tree and the graph's vertex
payload list and `(a, b, weight)` edge list. -/
structure MapDescription where
  menu_tree : MenuTree
  nodes : List String
  edges : List (Nat × Nat × Int)

/-- Both endpoints of every edge in the description name an existing vertex. -/
def MapDescription.edgesInBounds (d : MapDescription) : Bool :=
  d.edges.all fun t => t.1 < d.nodes.length && t.2.1 < d.nodes.length

/-- Some `EndNode` of the description's tree holds a handle with no matching
graph vertex. -/
def MapDescription.hasDanglingHandle (d : MapDescription) : Bool :=
  d.menu_tree.leafIndices.any fun i => d.nodes.length ≤ i

/-- Modelled from the spec: the spec's `load_from_description` entry point
(§4.3) has no hand-written body in the repository — it is the serde
`#[derive(Deserialize)]` on `DeltavMap` (src/deltav_calc_lib/src/lib.rs,
lines 90-95).  The derived code deserializes `menu_tree` and `graph` field by
field; petgraph's own deserializer rejects an edge whose endpoint is not a
vertex of the graph, but nothing compares the handles inside `menu_tree`'s
`EndNode`s against the graph's vertices. -/
def load_from_description (d : MapDescription) :
    Except DeserializeError DeltavMap :=
  if d.edgesInBounds then
    .ok { menu_tree := d.menu_tree, graph := { nodes := d.nodes, edges := d.edges } }
  else
    .error ⟨"invalid value: node index out of bounds"⟩

/-- A description whose tree has a `Location` leaf bound to handle 4 while
the graph has only the vertices 0..3. -/
def danglingDescription : MapDescription where
  menu_tree := .MiddleNode "Category1" [
    .MiddleNode "Category2" [
      .EndNode "Node1" 0,
      .EndNode "Node2" 1],
    .EndNode "Node3" 2,
    .EndNode "Node4" 4]
  nodes := ["Node1", "Node2", "Node3", "Node4"]
  edges := [(0, 1, 900), (1, 2, 80), (2, 3, 50)]

/-! ## Walks and path costs

The declarative counterpart of `UnGraph.pathCosts`: a walk is a list of
`(next vertex, edge weight)` steps, each along an undirected edge.  The
lemmas below show that `pathCosts` enumerates exactly the costs of the
duplicate-free walks, which gives symmetry of `shortest_path`, the zero
self-distance, and non-negativity of returned costs. -/

/-- `u` and `v` are joined by an undirected edge of weight `w`. -/
def UnGraph.adjW (g : UnGraph) (u v : Nat) (w : Int) : Prop :=
  (u, v, w) ∈ g.edges ∨ (v, u, w) ∈ g.edges

/-- `g.IsWalk u steps finish`: starting at `u`, each step moves along an
undirected edge of the recorded weight, ending at `finish`. -/
def UnGraph.IsWalk (g : UnGraph) : Nat → List (Nat × Int) → Nat → Prop
  | u, [], finish => u = finish
  | u, s :: rest, finish => g.adjW u s.1 s.2 ∧ g.IsWalk s.1 rest finish

/-- Total edge weight of a walk. -/
def walkCost (steps : List (Nat × Int)) : Int :=
  (steps.map Prod.snd).sum

/-- The vertices a walk visits, start included. -/
def walkVerts (u : Nat) (steps : List (Nat × Int)) : List Nat :=
  u :: steps.map Prod.fst

/-- Every endpoint of every edge, with repetitions. -/
def UnGraph.endpointsList (g : UnGraph) : List Nat :=
  g.edges.flatMap fun t => [t.1, t.2.1]

theorem adjW_symm {g : UnGraph} {u v : Nat} {w : Int} (h : g.adjW u v w) :
    g.adjW v u w :=
  h.symm

theorem mem_neighbors {g : UnGraph} {u v : Nat} {w : Int} :
    (v, w) ∈ g.neighbors u ↔ g.adjW u v w := by
  unfold UnGraph.neighbors UnGraph.adjW
  rw [List.mem_filterMap]
  constructor
  · rintro ⟨⟨a, b, c⟩, hmem, heq⟩
    by_cases ha : a = u
    · simp only [ha, if_pos rfl] at heq
      obtain ⟨rfl, rfl⟩ := Prod.mk.injEq .. ▸ Option.some.injEq .. ▸ heq
      exact Or.inl (by simpa using ha ▸ hmem)
    · simp only [if_neg ha] at heq
      by_cases hb : b = u
      · simp only [hb, if_pos rfl] at heq
        obtain ⟨rfl, rfl⟩ := Prod.mk.injEq .. ▸ Option.some.injEq .. ▸ heq
        exact Or.inr (by simpa using hb ▸ hmem)
      · simp [if_neg hb] at heq
  · rintro (h | h)
    · exact ⟨(u, v, w), h, by simp⟩
    · refine ⟨(v, u, w), h, ?_⟩
      by_cases hv : v = u
      · simp [hv]
      · simp [hv]

theorem isWalk_append {g : UnGraph} {a b c : Nat} {s1 s2 : List (Nat × Int)}
    (h1 : g.IsWalk a s1 b) (h2 : g.IsWalk b s2 c) : g.IsWalk a (s1 ++ s2) c := by
  induction s1 generalizing a with
  | nil =>
      have hab : a = b := h1
      subst hab
      exact h2
  | cons s rest ih =>
      obtain ⟨hadj, hrest⟩ := h1
      exact ⟨hadj, ih hrest⟩

/-- The reversal of a walk starting at `u`: steps are reversed and each step
records the vertex it left instead of the vertex it entered. -/
def revSteps : Nat → List (Nat × Int) → List (Nat × Int)
  | _, [] => []
  | u, s :: rest => revSteps s.1 rest ++ [(u, s.2)]

theorem isWalk_revSteps {g : UnGraph} {u finish : Nat} {steps : List (Nat × Int)}
    (h : g.IsWalk u steps finish) : g.IsWalk finish (revSteps u steps) u := by
  induction steps generalizing u with
  | nil =>
      have : u = finish := h
      subst this
      exact rfl
  | cons s rest ih =>
      obtain ⟨hadj, hrest⟩ := h
      exact isWalk_append (ih hrest) ⟨adjW_symm hadj, rfl⟩

theorem revSteps_cost {u : Nat} {steps : List (Nat × Int)} :
    walkCost (revSteps u steps) = walkCost steps := by
  induction steps generalizing u with
  | nil => rfl
  | cons s rest ih =>
      simp only [revSteps, walkCost, List.map_append, List.sum_append,
        List.map_cons, List.sum_cons] at *
      rw [ih]
      simp [Int.add_comm]

theorem revSteps_length {u : Nat} {steps : List (Nat × Int)} :
    (revSteps u steps).length = steps.length := by
  induction steps generalizing u with
  | nil => rfl
  | cons s rest ih => simp [revSteps, ih]

theorem revSteps_verts {g : UnGraph} {u finish : Nat} {steps : List (Nat × Int)}
    (h : g.IsWalk u steps finish) :
    walkVerts finish (revSteps u steps) = (walkVerts u steps).reverse := by
  induction steps generalizing u with
  | nil =>
      have : u = finish := h
      subst this
      rfl
  | cons s rest ih =>
      obtain ⟨_, hrest⟩ := h
      simp only [walkVerts, revSteps, List.map_append, List.map_cons, List.map_nil,
        List.reverse_cons] at *
      rw [← List.cons_append, ih hrest]

theorem walk_verts_mem_endpoints {g : UnGraph} {u finish : Nat}
    {steps : List (Nat × Int)} (h : g.IsWalk u steps finish) :
    ∀ x ∈ steps.map Prod.fst, x ∈ g.endpointsList := by
  induction steps generalizing u with
  | nil => intro x hx; simp at hx
  | cons s rest ih =>
      obtain ⟨hadj, hrest⟩ := h
      intro x hx
      rcases List.mem_cons.mp hx with hx | hx
      · subst hx
        unfold UnGraph.endpointsList
        rcases hadj with hmem | hmem
        · exact List.mem_flatMap.mpr ⟨_, hmem, by simp⟩
        · exact List.mem_flatMap.mpr ⟨_, hmem, by simp⟩
      · exact ih hrest x hx

theorem endpointsList_length (g : UnGraph) :
    g.endpointsList.length = 2 * g.edges.length := by
  unfold UnGraph.endpointsList
  induction g.edges with
  | nil => rfl
  | cons e rest ih => simp [List.flatMap_cons, ih]; omega

/-- A duplicate-free walk whose step vertices all come from the edge list
fits within the `pathCosts` fuel. -/
theorem nodup_walk_length_lt_fuel {g : UnGraph} {u : Nat} {steps : List (Nat × Int)}
    (hnd : (walkVerts u steps).Nodup)
    (hep : ∀ x ∈ steps.map Prod.fst, x ∈ g.endpointsList) :
    steps.length < g.pathFuel := by
  have hnd' : (steps.map Prod.fst).Nodup := (List.nodup_cons.mp hnd).2
  have hcard : (steps.map Prod.fst).toFinset.card = (steps.map Prod.fst).length :=
    List.toFinset_card_of_nodup hnd'
  have hsub : (steps.map Prod.fst).toFinset ⊆ g.endpointsList.toFinset := by
    intro x hx
    exact List.mem_toFinset.mpr (hep x (List.mem_toFinset.mp hx))
  have hle := Finset.card_le_card hsub
  have hel := List.toFinset_card_le g.endpointsList
  have := endpointsList_length g
  have hlen : (steps.map Prod.fst).length = steps.length := List.length_map ..
  unfold UnGraph.pathFuel
  omega

/-- Soundness of the enumeration: every enumerated cost is the cost of a
duplicate-free walk to `finish` that avoids `visited`. -/
theorem pathCosts_sound {g : UnGraph} {finish : Nat} :
    ∀ {fuel u : Nat} {visited : List Nat} {c : Int},
      c ∈ g.pathCosts u finish visited fuel →
      ∃ steps, g.IsWalk u steps finish ∧ walkCost steps = c ∧
        (walkVerts u steps).Nodup ∧ ∀ x ∈ steps.map Prod.fst, x ∉ visited := by
  intro fuel
  induction fuel with
  | zero => intro u visited c hc; simp [UnGraph.pathCosts] at hc
  | succ fuel ih =>
      intro u visited c hc
      rw [UnGraph.pathCosts, List.mem_append] at hc
      rcases hc with hc | hc
      · have hu : u = finish ∧ c = 0 := by
          by_cases h : u = finish
          · simp [h] at hc; exact ⟨h, hc⟩
          · simp [h] at hc
        refine ⟨[], hu.1, hu.2 ▸ rfl, by simp [walkVerts], by simp⟩
      · rw [List.mem_flatMap] at hc
        obtain ⟨vw, hvw, hc⟩ := hc
        by_cases hskip : vw.1 ∈ visited ∨ vw.1 = u
        · simp [hskip] at hc
        · simp only [if_neg hskip, List.mem_map] at hc
          obtain ⟨c', hc', rfl⟩ := hc
          obtain ⟨steps', hwalk, hcost, hnd, havoid⟩ := ih hc'
          push_neg at hskip
          refine ⟨(vw.1, vw.2) :: steps', ⟨mem_neighbors.mp hvw, hwalk⟩,
            by simp [walkCost] at hcost ⊢; omega, ?_, ?_⟩
          · rw [walkVerts, List.map_cons, List.nodup_cons]
            refine ⟨?_, hnd⟩
            intro hmem
            rcases List.mem_cons.mp hmem with h | h
            · exact hskip.2 h.symm
            · exact havoid u h (List.mem_cons_self u visited)
          · intro x hx
            rw [List.map_cons] at hx
            rcases List.mem_cons.mp hx with h | h
            · exact h ▸ hskip.1
            · exact fun hxv => havoid x h (List.mem_cons_of_mem u hxv)

/-- Completeness of the enumeration: the cost of any duplicate-free walk that
avoids `visited` is enumerated, given enough fuel. -/
theorem pathCosts_complete {g : UnGraph} {finish : Nat} :
    ∀ {steps : List (Nat × Int)} {u : Nat} {visited : List Nat} {fuel : Nat},
      g.IsWalk u steps finish → (walkVerts u steps).Nodup →
      (∀ x ∈ steps.map Prod.fst, x ∉ visited) → steps.length < fuel →
      walkCost steps ∈ g.pathCosts u finish visited fuel := by
  intro steps
  induction steps with
  | nil =>
      intro u visited fuel hwalk _ _ hfuel
      obtain ⟨f, rfl⟩ : ∃ f, fuel = f + 1 := ⟨fuel - 1, by omega⟩
      have : u = finish := hwalk
      subst this
      rw [UnGraph.pathCosts, List.mem_append]
      exact Or.inl (by simp [walkCost])
  | cons s rest ih =>
      intro u visited fuel hwalk hnd havoid hfuel
      obtain ⟨f, rfl⟩ : ∃ f, fuel = f + 1 := ⟨fuel - 1, by omega⟩
      obtain ⟨hadj, hrest⟩ := hwalk
      rw [walkVerts, List.map_cons, List.nodup_cons] at hnd
      obtain ⟨hu, hnd'⟩ := hnd
      rw [UnGraph.pathCosts, List.mem_append]
      right
      rw [List.mem_flatMap]
      refine ⟨(s.1, s.2), mem_neighbors.mpr hadj, ?_⟩
      have hs1u : s.1 ≠ u := fun h => hu (by rw [h]; exact List.mem_cons_self _ _)
      have hs1v : s.1 ∉ visited := havoid s.1 (by simp)
      rw [if_neg (by push_neg; exact ⟨hs1v, hs1u⟩)]
      rw [List.mem_map]
      refine ⟨walkCost rest, ih hrest hnd' ?_ (by simpa using hfuel), ?_⟩
      · intro x hx
        rw [List.mem_cons]
        push_neg
        refine ⟨fun hxu => hu (hxu ▸ List.mem_cons_of_mem _ hx), ?_⟩
        exact havoid x (by rw [List.map_cons]; exact List.mem_cons_of_mem _ hx)
      · simp [walkCost]

instance : Std.Antisymm fun (a b : Int) => a ≤ b :=
  ⟨fun h1 h2 => le_antisymm h1 h2⟩

theorem int_min?_eq_some_iff {l : List Int} {a : Int} :
    l.min? = some a ↔ a ∈ l ∧ ∀ b ∈ l, a ≤ b :=
  List.min?_eq_some_iff (fun _ => le_refl _) (fun _ _ => min_choice _ _)
    (fun _ _ _ => le_min_iff)

theorem int_min?_congr_mem {l1 l2 : List Int} (h : ∀ c, c ∈ l1 ↔ c ∈ l2) :
    l1.min? = l2.min? := by
  cases h1 : l1.min? with
  | none =>
      rw [List.min?_eq_none_iff] at h1
      subst h1
      cases h2 : l2.min? with
      | none => rfl
      | some a =>
          have := (int_min?_eq_some_iff.mp h2).1
          exact absurd ((h a).mpr this) (by simp)
  | some a =>
      obtain ⟨hmem, hle⟩ := int_min?_eq_some_iff.mp h1
      cases h2 : l2.min? with
      | none =>
          rw [List.min?_eq_none_iff] at h2
          subst h2
          exact absurd ((h a).mp hmem) (by simp)
      | some b =>
          obtain ⟨hmem2, hle2⟩ := int_min?_eq_some_iff.mp h2
          exact congrArg some
            (le_antisymm (hle b ((h b).mpr hmem2)) (hle2 a ((h a).mp hmem)))

/-- Any cost of a simple path from `a` to `b` is also the cost of a simple
path from `b` to `a` (reverse the walk). -/
theorem pathCosts_mem_symm {g : UnGraph} {a b : Nat} {c : Int}
    (h : c ∈ g.pathCosts a b [] g.pathFuel) :
    c ∈ g.pathCosts b a [] g.pathFuel := by
  obtain ⟨steps, hwalk, hcost, hnd, _⟩ := pathCosts_sound h
  have hlen : steps.length < g.pathFuel :=
    nodup_walk_length_lt_fuel hnd (walk_verts_mem_endpoints hwalk)
  have hwalkr := isWalk_revSteps hwalk
  have hndr : (walkVerts b (revSteps a steps)).Nodup := by
    rw [revSteps_verts hwalk]
    exact List.nodup_reverse.mpr hnd
  have hcr : walkCost (revSteps a steps) = c := revSteps_cost.trans hcost
  have hlenr : (revSteps a steps).length < g.pathFuel := by
    rw [revSteps_length]; exact hlen
  exact hcr ▸ pathCosts_complete hwalkr hndr (by simp) hlenr

/-- The graph is undirected: the minimum path cost is the same in both
directions. -/
theorem shortest_path_symm (g : UnGraph) (a b : Nat) :
    g.shortest_path a b = g.shortest_path b a := by
  unfold UnGraph.shortest_path
  exact int_min?_congr_mem fun c => ⟨pathCosts_mem_symm, pathCosts_mem_symm⟩

/-- Once the target is already among the avoided vertices, no further simple
path can reach it. -/
theorem pathCosts_finish_visited {g : UnGraph} {finish : Nat} :
    ∀ {fuel u : Nat} {visited : List Nat}, finish ∈ visited → u ≠ finish →
      g.pathCosts u finish visited fuel = [] := by
  intro fuel
  induction fuel with
  | zero => intro u visited _ _; rfl
  | succ fuel ih =>
      intro u visited hfin hne
      rw [UnGraph.pathCosts, if_neg hne, List.nil_append, List.flatMap_eq_nil_iff]
      intro vw _
      by_cases hskip : vw.1 ∈ visited ∨ vw.1 = u
      · rw [if_pos hskip]
      · rw [if_neg hskip]
        push_neg at hskip
        have : vw.1 ≠ finish := fun h => hskip.1 (h ▸ hfin)
        rw [ih (List.mem_cons_of_mem u hfin) this, List.map_nil]

/-- The only simple path from a vertex to itself is the empty one. -/
theorem pathCosts_self (g : UnGraph) (s : Nat) :
    ∀ (fuel : Nat) (visited : List Nat), g.pathCosts s s visited (fuel + 1) = [0] := by
  intro fuel visited
  rw [UnGraph.pathCosts, if_pos rfl]
  have : (g.neighbors s).flatMap (fun vw =>
      if vw.1 ∈ visited ∨ vw.1 = s then []
      else (g.pathCosts vw.1 s (s :: visited) fuel).map fun c => vw.2 + c) = [] := by
    rw [List.flatMap_eq_nil_iff]
    intro vw _
    by_cases hskip : vw.1 ∈ visited ∨ vw.1 = s
    · rw [if_pos hskip]
    · rw [if_neg hskip]
      push_neg at hskip
      rw [pathCosts_finish_visited (List.mem_cons_self s visited) hskip.2, List.map_nil]
  rw [this, List.append_nil]

/-- `shortest_path` returns `Some(0)` when start equals end. -/
theorem shortest_path_self (g : UnGraph) (s : Nat) :
    g.shortest_path s s = some 0 := by
  unfold UnGraph.shortest_path
  have hfuel : g.pathFuel = (2 * g.edges.length + 1) + 1 := by
    unfold UnGraph.pathFuel; omega
  rw [hfuel, pathCosts_self]
  rfl

/-- With non-negative edge weights every walk has non-negative cost. -/
theorem walkCost_nonneg {g : UnGraph} {finish : Nat}
    (hw : ∀ t ∈ g.edges, 0 ≤ t.2.2) :
    ∀ {steps : List (Nat × Int)} {u : Nat}, g.IsWalk u steps finish →
      0 ≤ walkCost steps := by
  intro steps
  induction steps with
  | nil => intro u _; simp [walkCost]
  | cons s rest ih =>
      intro u hwalk
      obtain ⟨hadj, hrest⟩ := hwalk
      have hwnn : 0 ≤ s.2 := by
        rcases hadj with hmem | hmem
        · exact hw _ hmem
        · exact hw _ hmem
      have := ih hrest
      simp only [walkCost, List.map_cons, List.sum_cons] at *
      omega

/-- `connected` (defined by the simple-path enumeration) coincides with the
existence of a duplicate-free walk. -/
theorem connected_iff_walk (g : UnGraph) (a b : Nat) :
    g.connected a b ↔
      ∃ steps, g.IsWalk a steps b ∧ (walkVerts a steps).Nodup := by
  constructor
  · intro h
    obtain ⟨c, hc⟩ := List.exists_mem_of_ne_nil _ h
    obtain ⟨steps, hwalk, _, hnd, _⟩ := pathCosts_sound hc
    exact ⟨steps, hwalk, hnd⟩
  · rintro ⟨steps, hwalk, hnd⟩
    have hlen : steps.length < g.pathFuel :=
      nodup_walk_length_lt_fuel hnd (walk_verts_mem_endpoints hwalk)
    intro hnil
    have hmem : walkCost steps ∈ g.pathCosts a b [] g.pathFuel :=
      pathCosts_complete hwalk hnd (by simp) hlen
    rw [hnil] at hmem
    exact absurd hmem (by simp)

/-! ## The claims -/

/-- C1: for the 4-leaf reference catalog (`get_test_map`, edges
`(0,1,900), (1,2,80), (2,3,50)`), `calculate_delta_v("Node1", "Node4")`
returns `Ok(Some(1030))`. -/
theorem calculate_delta_v_worked_example :
    get_test_map.calculate_delta_v "Node1" "Node4" = .ok (some 1030) := by
  rfl

/-- C2: `delta_v` is symmetric — for every catalog and every pair of names
resolving to `EndNode` leaves, swapping start and end gives the same result
(the graph is undirected, so the minimum path cost is direction-independent). -/
theorem calculate_delta_v_symm (m : DeltavMap) (a b na nb : String) (i j : Nat)
    (ha : m.menu_tree.search a = .ok (.EndNode na i))
    (hb : m.menu_tree.search b = .ok (.EndNode nb j)) :
    m.calculate_delta_v a b = m.calculate_delta_v b a := by
  unfold DeltavMap.calculate_delta_v
  rw [ha, hb]
  show CalcResult.ok (m.graph.shortest_path i j) =
    CalcResult.ok (m.graph.shortest_path j i)
  rw [shortest_path_symm]

/-- Witness for C2 at the reference catalog: `Node1`/`Node4` both resolve to
leaves and the two query directions agree. -/
theorem calculate_delta_v_symm_witness :
    get_test_map.menu_tree.search "Node1" = .ok (.EndNode "Node1" 0) ∧
    get_test_map.menu_tree.search "Node4" = .ok (.EndNode "Node4" 3) ∧
    get_test_map.calculate_delta_v "Node1" "Node4" =
      get_test_map.calculate_delta_v "Node4" "Node1" :=
  ⟨rfl, rfl,
    calculate_delta_v_symm get_test_map "Node1" "Node4" "Node1" "Node4" 0 3 rfl rfl⟩

/-- C3: for every catalog and every name resolving to an `EndNode` leaf,
`calculate_delta_v(name, name)` returns `Ok(Some(0))`. -/
theorem calculate_delta_v_self (m : DeltavMap) (name nm : String) (i : Nat)
    (h : m.menu_tree.search name = .ok (.EndNode nm i)) :
    m.calculate_delta_v name name = .ok (some 0) := by
  unfold DeltavMap.calculate_delta_v
  rw [h]
  show CalcResult.ok (m.graph.shortest_path i i) = CalcResult.ok (some 0)
  rw [shortest_path_self]

/-- Witness for C3 at the reference catalog with `Node1`. -/
theorem calculate_delta_v_self_witness :
    get_test_map.menu_tree.search "Node1" = .ok (.EndNode "Node1" 0) ∧
    get_test_map.calculate_delta_v "Node1" "Node1" = .ok (some 0) :=
  ⟨rfl, calculate_delta_v_self get_test_map "Node1" "Node1" 0 rfl⟩

/-- C4: a name absent from the tree makes `search` fail with an error
carrying exactly that name; `calculate_delta_v` resolves the start name
first, so an unknown start yields the error carrying the start name even if
the end is also unknown, while a resolving start with an unknown end yields
the error carrying the end name. -/
theorem not_found_error_carries_name :
    (∀ (t : MenuTree) (s : String), s ∉ t.names → t.search s = .error ⟨s⟩) ∧
    (∀ (m : DeltavMap) (a b : String), a ∉ m.menu_tree.names →
      m.calculate_delta_v a b = .err ⟨a⟩) ∧
    (∀ (m : DeltavMap) (a b : String) (node : MenuTree),
      m.menu_tree.search a = .ok node → b ∉ m.menu_tree.names →
      m.calculate_delta_v a b = .err ⟨b⟩) := by
  refine ⟨fun t s h => search_not_found h, ?_, ?_⟩
  · intro m a b ha
    unfold DeltavMap.calculate_delta_v
    rw [search_not_found ha]
  · intro m a b node ha hb
    unfold DeltavMap.calculate_delta_v
    rw [ha, search_not_found hb]

/-- Witness for C4 at the reference catalog: `"Nonexistent"` is nowhere in
the tree; a bad start wins over a bad end; a bad end is reported when the
start resolves. -/
theorem not_found_error_carries_name_witness :
    get_test_map.menu_tree.search "Nonexistent" = .error ⟨"Nonexistent"⟩ ∧
    get_test_map.calculate_delta_v "Nonexistent" "AlsoMissing" = .err ⟨"Nonexistent"⟩ ∧
    get_test_map.calculate_delta_v "Node1" "Nonexistent" = .err ⟨"Nonexistent"⟩ :=
  ⟨not_found_error_carries_name.1 get_test_map.menu_tree "Nonexistent" (by decide),
   not_found_error_carries_name.2.1 get_test_map "Nonexistent" "AlsoMissing" (by decide),
   not_found_error_carries_name.2.2 get_test_map "Node1" "Nonexistent"
     (.EndNode "Node1" 0) rfl (by decide)⟩

/-- C5: `search` is a deterministic depth-first search — it returns the
first node of the preorder traversal (own name before children, children in
stored order) whose name equals the query exactly, and an error carrying the
query if no node of the subtree matches. -/
theorem search_is_first_preorder_match :
    ∀ (t : MenuTree) (s : String),
      t.search s = match t.preorder.find? (fun n => n.name == s) with
        | some n => Except.ok n
        | none => Except.error ⟨s⟩ :=
  search_spec_aux.1

/-- C6: when the two resolved leaves are in different connected components,
`calculate_delta_v` returns `Ok(None)` — a successful answer, not an error;
in particular the isolated fifth leaf of `get_test_map_disconnected` gives
`delta_v("Node1", "Node5") = Ok(None)`. -/
theorem disconnected_is_ok_none :
    (∀ (m : DeltavMap) (a b na nb : String) (i j : Nat),
      m.menu_tree.search a = .ok (.EndNode na i) →
      m.menu_tree.search b = .ok (.EndNode nb j) →
      ¬ m.graph.connected i j →
      m.calculate_delta_v a b = .ok none) ∧
    get_test_map_disconnected.calculate_delta_v "Node1" "Node5" = .ok none := by
  refine ⟨?_, rfl⟩
  intro m a b na nb i j ha hb hconn
  unfold DeltavMap.calculate_delta_v
  rw [ha, hb]
  show CalcResult.ok (m.graph.shortest_path i j) = CalcResult.ok none
  unfold UnGraph.connected at hconn
  rw [not_ne_iff] at hconn
  unfold UnGraph.shortest_path
  rw [hconn, List.min?_nil]

/-- Witness for C6 at the extended catalog: vertex 4 (`Node5`) is isolated,
so the query succeeds with `none`. -/
theorem disconnected_is_ok_none_witness :
    get_test_map_disconnected.menu_tree.search "Node1" = .ok (.EndNode "Node1" 0) ∧
    get_test_map_disconnected.menu_tree.search "Node5" = .ok (.EndNode "Node5" 4) ∧
    ¬ get_test_map_disconnected.graph.connected 0 4 ∧
    get_test_map_disconnected.calculate_delta_v "Node1" "Node5" = .ok none :=
  ⟨rfl, rfl, by decide,
    disconnected_is_ok_none.1 get_test_map_disconnected "Node1" "Node5" "Node1"
      "Node5" 0 4 rfl rfl (by decide)⟩

/-- C7 counterexample: a description whose tree holds the dangling handle 4
over a 4-vertex graph loads successfully — the dangling-handle condition is
not surfaced as a `DeserializeError` at load time, contrary to the claim. -/
theorem load_accepts_dangling_handle :
    danglingDescription.hasDanglingHandle = true ∧
    load_from_description danglingDescription =
      .ok { menu_tree := danglingDescription.menu_tree,
            graph := { nodes := danglingDescription.nodes,
                       edges := danglingDescription.edges } } :=
  ⟨rfl, rfl⟩

/-- C7 as amended: loading is all-or-nothing — a structurally valid
description (edge endpoints in bounds) loads completely into a catalog even
when a tree handle dangles, and an invalid one yields a `DeserializeError`
and no partial catalog. -/
theorem load_from_description_spec (d : MapDescription) :
    (d.edgesInBounds = true →
      load_from_description d =
        .ok { menu_tree := d.menu_tree,
              graph := { nodes := d.nodes, edges := d.edges } }) ∧
    (d.edgesInBounds = false →
      load_from_description d = .error ⟨"invalid value: node index out of bounds"⟩) := by
  constructor
  · intro h
    unfold load_from_description
    rw [h]
    rfl
  · intro h
    unfold load_from_description
    rw [h]
    rfl

/-- A description whose graph section is itself invalid: the edge `(0, 5)`
references vertex 5 of a 1-vertex graph. -/
def badEdgeDescription : MapDescription where
  menu_tree := .EndNode "X" 0
  nodes := ["X"]
  edges := [(0, 5, 10)]

/-- Witness for the amended C7: a valid description loads completely, an
invalid one errors. -/
theorem load_from_description_spec_witness :
    danglingDescription.edgesInBounds = true ∧
    load_from_description danglingDescription =
      .ok { menu_tree := danglingDescription.menu_tree,
            graph := { nodes := danglingDescription.nodes,
                       edges := danglingDescription.edges } } ∧
    badEdgeDescription.edgesInBounds = false ∧
    load_from_description badEdgeDescription =
      .error ⟨"invalid value: node index out of bounds"⟩ :=
  ⟨rfl, (load_from_description_spec danglingDescription).1 rfl, rfl,
   (load_from_description_spec badEdgeDescription).2 rfl⟩

/-- C8: `index` yields a handle only on an `EndNode`; on a `MiddleNode` it
panics (modelled by `none`), and a `calculate_delta_v` call either of whose
resolved nodes is a `MiddleNode` panics instead of returning a `Result`. -/
theorem index_panics_on_category :
    (∀ (n : String) (cs : List MenuTree), (MenuTree.MiddleNode n cs).index = none) ∧
    (∀ (n : String) (i : Nat), (MenuTree.EndNode n i).index = some i) ∧
    (∀ (m : DeltavMap) (a b : String) (sNode fNode : MenuTree),
      m.menu_tree.search a = .ok sNode →
      m.menu_tree.search b = .ok fNode →
      (sNode.index = none ∨ fNode.index = none) →
      m.calculate_delta_v a b = .panicked) := by
  refine ⟨fun n cs => rfl, fun n i => rfl, ?_⟩
  intro m a b sNode fNode ha hb hcat
  unfold DeltavMap.calculate_delta_v
  rw [ha, hb]
  cases sNode with
  | MiddleNode n cs => cases fNode <;> rfl
  | EndNode n i =>
      cases fNode with
      | MiddleNode nb cs => rfl
      | EndNode nb j =>
          rcases hcat with h | h <;>
            exact Option.noConfusion (h : some _ = none)

/-- Witness for C8 at the reference catalog: `"Category2"` resolves to a
`MiddleNode`, so the query panics. -/
theorem index_panics_on_category_witness :
    (MenuTree.MiddleNode "Category2"
      [.EndNode "Node1" 0, .EndNode "Node2" 1]).index = none ∧
    get_test_map.menu_tree.search "Category2" =
      .ok (.MiddleNode "Category2" [.EndNode "Node1" 0, .EndNode "Node2" 1]) ∧
    get_test_map.calculate_delta_v "Category2" "Node1" = .panicked :=
  ⟨rfl, rfl,
    index_panics_on_category.2.2 get_test_map "Category2" "Node1"
      (.MiddleNode "Category2" [.EndNode "Node1" 0, .EndNode "Node2" 1])
      (.EndNode "Node1" 0) rfl rfl (Or.inl rfl)⟩

/-- C9: in the stock catalog every `EndNode` handle appearing in the menu
tree is a vertex that exists in the paired graph. -/
theorem new_stock_leaf_handles_valid :
    DeltavMap.new_stock.menu_tree.leafIndices.all
      (fun i => decide (DeltavMap.new_stock.graph.hasVertex i)) = true := by
  decide

/-- C10: with non-negative edge weights, a cost returned as `Ok(Some(c))` is
non-negative — it is a sum of non-negative edge weights. -/
theorem calculate_delta_v_nonneg (m : DeltavMap) (a b : String) (c : Int)
    (hw : ∀ t ∈ m.graph.edges, 0 ≤ t.2.2)
    (h : m.calculate_delta_v a b = .ok (some c)) : 0 ≤ c := by
  unfold DeltavMap.calculate_delta_v at h
  rcases hsa : m.menu_tree.search a with e | sNode
  all_goals rw [hsa] at h
  · exact CalcResult.noConfusion (h : CalcResult.err e = CalcResult.ok (some c))
  rcases hsb : m.menu_tree.search b with e | fNode
  all_goals rw [hsb] at h
  · exact CalcResult.noConfusion (h : CalcResult.err e = CalcResult.ok (some c))
  cases sNode with
  | MiddleNode n cs =>
      cases fNode with
      | MiddleNode nb cs2 =>
          exact CalcResult.noConfusion (h : CalcResult.panicked = CalcResult.ok (some c))
      | EndNode nb j =>
          exact CalcResult.noConfusion (h : CalcResult.panicked = CalcResult.ok (some c))
  | EndNode n i =>
      cases fNode with
      | MiddleNode nb cs2 =>
          exact CalcResult.noConfusion (h : CalcResult.panicked = CalcResult.ok (some c))
      | EndNode nb j =>
          have h' : m.graph.shortest_path i j = some c := by
            have hh : CalcResult.ok (m.graph.shortest_path i j) =
                CalcResult.ok (some c) := h
            injection hh
          unfold UnGraph.shortest_path at h'
          have hc := (int_min?_eq_some_iff.mp h').1
          obtain ⟨steps, hwalk, hcost, _, _⟩ := pathCosts_sound hc
          exact hcost ▸ walkCost_nonneg hw hwalk

/-- Witness for C10 at the reference catalog: all weights are non-negative
and the returned 1030 is non-negative. -/
theorem calculate_delta_v_nonneg_witness :
    (∀ t ∈ get_test_map.graph.edges, 0 ≤ t.2.2) ∧
    get_test_map.calculate_delta_v "Node1" "Node4" = .ok (some 1030) ∧
    (0 : Int) ≤ 1030 :=
  ⟨by decide, rfl,
    calculate_delta_v_nonneg get_test_map "Node1" "Node4" 1030 (by decide) rfl⟩

end DeltavCalc
